import Mathlib

/-!
# Verification of the apex-load-generator workload layer

A shallow embedding, in Lean 4, of the workload-generation layer of the
apex-load-generator HTTP service (Go).  The embedding covers:

* `parseIntOrRange` — the parameter grammar (single value or `"min..max"`
  range) with bounds enforcement, from the final snapshot (`part_004`);
* `generatePrimes` — streaming trial-division prime enumeration
  (`part_004` / `main.go`), and the superseded list-returning variant
  (`part_003`);
* `createHexString` — bulk hex payload generation;
* `allocateMemory` / `getMemory` — the memory stressor and its handler,
  including the defer/recover behaviour of the Go source;
* the multi-operation handler `primesHexMemory` in both its final
  (`part_004`) and superseded (`main.go`) forms.

Modelling conventions:

* Go strings are embedded as `String` / `List Char`; the Go standard
  library functions used by the source (`strconv.Atoi`, `strings.Split`,
  `strings.Contains`, `strings.TrimSpace`) are re-implemented here with
  their documented semantics, specialised to the separator `".."` where
  the source only ever uses that separator.
* Go `int` is embedded as `Int`.  Overflow is not modelled: every ceiling
  in this program is at most 1,000,000, far below 2^63, and any candidate
  value beyond the ceiling is rejected by the bounds checks in both the
  source and the model, so the statements proved below carry an explicit
  `≤ MaxMemoryKB` style hypothesis on the ceiling where a general ceiling
  is quantified.
* `rand.Intn k` (which returns a uniformly distributed value in `[0, k)`)
  is modelled by an arbitrary offset `off : Nat` reduced modulo `k`; every
  property proved holds for all offsets, hence for every possible draw.
* Wall-clock durations (`DurationUs`, `DurationMs`) and the request
  metrics snapshots are real-time observations and are not modelled; no
  claim below depends on them.
* The unbounded `for` loops of the prime generators are embedded with an
  explicit fuel parameter (`none` = fuel exhausted); termination is
  recovered by theorems producing sufficient fuel.
-/

/-! ## Ceilings (constants of `part_004`) -/

/-- Go: `MaxMemoryKB = 1000000`, maximum memory allocation in KB. -/
def MaxMemoryKB : Int := 1000000

/-- Go: `MaxFibonacci = 45`, maximum Fibonacci position. -/
def MaxFibonacci : Int := 45

/-- Go: `MaxPrimes = 10000`, maximum prime count. -/
def MaxPrimes : Int := 10000

/-- Go: `MaxHexKB = 10000`, maximum hex string size in KB. -/
def MaxHexKB : Int := 10000

/-! ## Models of the Go standard library functions used by the source -/

/-- The characters accepted by Go's `unicode.IsSpace` (the White_Space
property): the ASCII whitespace characters plus NEL, NBSP and the Unicode
space separators.  Used to model `strings.TrimSpace`. -/
def isGoSpace (c : Char) : Bool :=
  decide (c.toNat = 9 ∨ c.toNat = 10 ∨ c.toNat = 11 ∨ c.toNat = 12 ∨
    c.toNat = 13 ∨ c.toNat = 32 ∨ c.toNat = 133 ∨ c.toNat = 160 ∨
    c.toNat = 0x1680 ∨ (0x2000 ≤ c.toNat ∧ c.toNat ≤ 0x200A) ∨
    c.toNat = 0x2028 ∨ c.toNat = 0x2029 ∨ c.toNat = 0x202F ∨
    c.toNat = 0x205F ∨ c.toNat = 0x3000)

/-- Model of `strings.TrimSpace`: drop leading and trailing whitespace. -/
def goTrimSpace (s : List Char) : List Char :=
  ((s.dropWhile isGoSpace).reverse.dropWhile isGoSpace).reverse

/-- An unsigned decimal digit run, as accepted by `strconv.ParseInt` after
the optional sign: at least one character, all decimal digits, evaluated
most-significant first. -/
def parseDigits (cs : List Char) : Option Nat :=
  if cs.isEmpty then none
  else if cs.all Char.isDigit then
    some (cs.foldl (fun a c => 10 * a + (c.toNat - 48)) 0)
  else none

/-- Model of `strconv.Atoi` (= `strconv.ParseInt(s, 10, 0)`): an optional
leading `+` or `-` sign followed by one or more decimal digits, nothing
else (in particular no surrounding whitespace).  `none` models a non-nil
error.  Overflow of the 64-bit range is not modelled (see the header). -/
def goAtoi (s : List Char) : Option Int :=
  match s with
  | [] => none
  | c :: rest =>
    if c = '-' then (parseDigits rest).map fun n => -(n : Int)
    else if c = '+' then (parseDigits rest).map fun n => (n : Int)
    else (parseDigits (c :: rest)).map fun n => (n : Int)

/-- Model of `strings.Contains(s, "..")`: scan for two consecutive dots. -/
def containsDots : List Char → Bool
  | c1 :: c2 :: rest => (c1 = '.' && c2 = '.') || containsDots (c2 :: rest)
  | _ => false

/-- Model of `strings.Split(s, "..")`: split around each non-overlapping
occurrence of `".."`, scanning left to right. -/
def splitOnDots : List Char → List (List Char)
  | [] => [[]]
  | '.' :: '.' :: rest => [] :: splitOnDots rest
  | c :: rest =>
    match splitOnDots rest with
    | [] => [[c]]
    | s :: ss => (c :: s) :: ss

/-! ## The range parser (`parseIntOrRange`, `part_004`) -/

/-- The distinct errors produced by `parseIntOrRange`, one constructor per
`fmt.Errorf` site in the source. -/
inductive ParseErr where
  /-- Go: "invalid range format, use min..max" -/
  | invalidRangeFormat
  /-- Go: "invalid minimum value: %v" -/
  | invalidMinimum
  /-- Go: "invalid maximum value: %v" -/
  | invalidMaximum
  /-- Go: "values must be non-negative" -/
  | negativeValues
  /-- Go: "minimum value cannot be greater than maximum" -/
  | minGreaterThanMax
  /-- Go: "values must be within range (0-%d)" -/
  | valuesOutOfBounds
  /-- Go: "invalid number: %v" -/
  | invalidNumber
  /-- Go: "number out of range (0-%d)" -/
  | numberOutOfRange
deriving DecidableEq

/-- Model of `parseIntOrRange(param, maxValue, paramName)` from
`part_004`.  Returns the parsed value and whether it was a range.  The
extra argument `off` models the process-wide random source: the source
draws `min + rand.Intn(max-min+1)`, the model computes
`min + off % (max-min+1)`, which ranges over exactly the values
`rand.Intn` can produce as `off` ranges over `Nat`. -/
def parseIntOrRange (param : String) (maxValue : Int) (paramName : String)
    (off : Nat) : Except ParseErr (Int × Bool) :=
  if containsDots param.data then
    match splitOnDots param.data with
    | [minPart, maxPart] =>
      match goAtoi (goTrimSpace minPart) with
      | none => .error .invalidMinimum
      | some mn =>
        match goAtoi (goTrimSpace maxPart) with
        | none => .error .invalidMaximum
        | some mx =>
          if mn < 0 ∨ mx < 0 then .error .negativeValues
          else if mn > mx then .error .minGreaterThanMax
          else if mn > maxValue ∨ mx > maxValue then .error .valuesOutOfBounds
          else .ok (mn + ((off % (mx - mn + 1).toNat : Nat) : Int), true)
    | _ => .error .invalidRangeFormat
  else
    match goAtoi param.data with
    | none => .error .invalidNumber
    | some value =>
      if value < 0 ∨ value > maxValue then .error .numberOutOfRange
      else .ok (value, false)

/-! ## Decimal rendering (specification side, for stating claims about
the decimal string of an integer) -/

/-- The decimal digit characters of `n`, most significant first. -/
def decChars (n : Nat) : List Char :=
  if h : n < 10 then [Nat.digitChar n]
  else decChars (n / 10) ++ [Nat.digitChar (n % 10)]
decreasing_by exact Nat.div_lt_self (by omega) (by omega)

/-- The decimal string of a natural number `N`. -/
def decimalString (n : Nat) : String := ⟨decChars n⟩

/-- The decimal string of the negative integer `-M` (for `M ≥ 1`). -/
def negDecimalString (m : Nat) : String := ⟨'-' :: decChars m⟩

/-! ## The legacy Fibonacci generator -/

/-- Model of `fibonacciRecursive(n int)` restricted to `n ≥ 0` (the
caller validates `0 ≤ n ≤ 45` first): the source returns `n` when
`n <= 1` and `fibonacciRecursive(n-1) + fibonacciRecursive(n-2)`
otherwise. -/
def fibonacciRecursive : Nat → Nat
  | 0 => 0
  | 1 => 1
  | n + 2 => fibonacciRecursive (n + 1) + fibonacciRecursive n

/-! ## The prime generator (`part_004` / `main.go` core, and the
superseded `part_003` list variant) -/

/-- The inner trial-division loop of `generatePrimes`: range over the
primes found so far, break once `prime*prime > candidate`, report
composite on the first divisor found. -/
def trialDivide : List Nat → Nat → Bool
  | [], _ => true
  | p :: ps, candidate =>
    if p * p > candidate then true
    else if candidate % p = 0 then false
    else trialDivide ps candidate

/-- The outer loop of `generatePrimes` (final variants), with its full
local state `(primes, lastPrime, count)` and the loop variable
`candidate`; `for candidate := 3; count < n; candidate += 2`.  Fuel bounds
the number of iterations; `none` means the fuel ran out. -/
def generatePrimesLoop :
    Nat → List Nat → Nat → Nat → Nat → Nat → Option (List Nat × Nat × Nat)
  | 0, _, _, _, _, _ => none
  | fuel + 1, primes, lastPrime, count, n, candidate =>
    if count < n then
      if trialDivide primes candidate then
        generatePrimesLoop fuel (primes ++ [candidate]) candidate (count + 1)
          n (candidate + 2)
      else
        generatePrimesLoop fuel primes lastPrime count n (candidate + 2)
    else some (primes, count, lastPrime)

/-- The numeric core of `generatePrimes` (`main.go` takes `n int`
directly; `part_004` reaches the same code after `parseIntOrRange`): the
`n <= 0` and `n == 1` early returns, then the loop seeded with
`primes = [2]`, `lastPrime = 2`, `count = 1`, `candidate = 3`.  Only
`(count, lastPrime)` are projected into the result, mirroring
`PrimeResult{Count: count, LastPrime: lastPrime}`. -/
def generatePrimes (fuel n : Nat) : Option (Nat × Nat) :=
  if n = 0 then some (0, 0)
  else if n = 1 then some (1, 2)
  else (generatePrimesLoop fuel [2] 2 1 n 3).map fun s => (s.2.1, s.2.2)

/-- The outer loop of the superseded `part_003` `generatePrimes`, whose
state is just the list: `for candidate := 3; len(primes) < n;
candidate += 2`. -/
def generatePrimesLoopPart3 : Nat → List Nat → Nat → Nat → Option (List Nat)
  | 0, _, _, _ => none
  | fuel + 1, primes, n, candidate =>
    if primes.length < n then
      if trialDivide primes candidate then
        generatePrimesLoopPart3 fuel (primes ++ [candidate]) n (candidate + 2)
      else
        generatePrimesLoopPart3 fuel primes n (candidate + 2)
    else some primes

/-- The superseded `part_003` `generatePrimes(n int) []int`: returns the
whole list of the first `n` primes. -/
def generatePrimesPart3 (fuel n : Nat) : Option (List Nat) :=
  if n = 0 then some []
  else if n = 1 then some [2]
  else generatePrimesLoopPart3 fuel [2] n 3

/-- Specification side: the ascending list of all primes below `c`. -/
def primesBelow (c : Nat) : List Nat :=
  (List.range c).filter fun k => decide (Nat.Prime k)

/-- Specification side: the loop invariant of `generatePrimesLoop`.  The
`primes` list is exactly the ascending list of all primes below the
current candidate, `count` counts them, `lastPrime` is the
`count`-th prime (0-indexed `count - 1`), and the candidate is odd and at
least 3. -/
def PrimeLoopInv (primes : List Nat) (lastPrime count candidate : Nat) : Prop :=
  primes = primesBelow candidate ∧
  count = Nat.count Nat.Prime candidate ∧
  1 ≤ count ∧
  Nat.nth Nat.Prime (count - 1) = lastPrime ∧
  3 ≤ candidate ∧ candidate % 2 = 1

/-! ## The hex generator -/

/-- The fixed alphabet of `createHexString`. -/
def hexChars : List Char := "0123456789abcdef".data

/-- The body of `createHexString` after validation: a buffer of `n*1024`
characters, position `i` filled with `hexChars[rand.Intn(16)]`.  The
random source is modelled by `rng`, giving the `i`-th draw; reducing
modulo 16 makes the model range over exactly the values `rand.Intn(16)`
can produce. -/
def createHexChars (n : Nat) (rng : Nat → Nat) : List Char :=
  (List.range (n * 1024)).map fun i => hexChars.getD (rng i % 16) '0'

/-- Result of hex generation (`HexResult`); durations omitted. -/
structure HexResult where
  sizeKB : Int
  length : Nat
  hexString : List Char
  requestedRange : Option String
deriving DecidableEq

/-- Model of `createHexString(param)` from `part_004`: parse the
parameter against `MaxHexKB`, then build the buffer. -/
def createHexStringV4 (param : String) (off : Nat) (rng : Nat → Nat) :
    Except ParseErr HexResult :=
  match parseIntOrRange param MaxHexKB "hex" off with
  | .error e => .error e
  | .ok (n, wasRange) =>
    let s := createHexChars n.toNat rng
    .ok { sizeKB := n, length := s.length, hexString := s,
          requestedRange := if wasRange then some param else none }

/-! ## The memory stressor -/

/-- Result of memory allocation (`MemoryResult`); durations omitted. -/
structure MemoryResult where
  sizeKB : Int
  requestedRange : Option String
deriving DecidableEq

/-- The zero value `MemoryResult{}` of the Go struct. -/
def zeroMemoryResult : MemoryResult := { sizeKB := 0, requestedRange := none }

/-- Model of `allocateMemory(param)` from `part_004`, returning the Go
pair `(MemoryResult, error)` with the error as an `Option`.

The argument `allocPanics` models whether the `make([]byte, k*1024)`
allocation fails (panics).  When it does, the deferred function recovers
the panic and assigns to the function-local variable `err` — but the
function's result parameters are *unnamed* (`(MemoryResult, error)`, not
`(res MemoryResult, err error)`), so by Go's defer/recover semantics that
assignment never reaches the caller: the function returns the zero values
`(MemoryResult{}, nil)`.  The model reproduces exactly that behaviour. -/
def allocateMemory (param : String) (off : Nat) (allocPanics : Bool) :
    MemoryResult × Option ParseErr :=
  match parseIntOrRange param MaxMemoryKB "memory" off with
  | .error e => (zeroMemoryResult, some e)
  | .ok (k, wasRange) =>
    if allocPanics then
      (zeroMemoryResult, none)
    else
      ({ sizeKB := k,
         requestedRange := if wasRange then some param else none }, none)

/-- Model of the `part_004` handler `getMemory`: any non-nil error from
`allocateMemory` is surfaced as HTTP 400 with the parameter name;
otherwise HTTP 200 with the result. -/
def getMemory (m : String) (off : Nat) (allocPanics : Bool) :
    Nat × Except (String × ParseErr) MemoryResult :=
  match allocateMemory m off allocPanics with
  | (_, some e) => (400, .error ("m", e))
  | (result, none) => (200, .ok result)

/-! ## The multi-operation handler `primesHexMemory` -/

/-- Result of prime generation (`PrimeResult`); durations omitted. -/
structure PrimeResult where
  count : Nat
  lastPrime : Nat
  requestedRange : Option String
deriving DecidableEq

/-- Model of `generatePrimes(param)` from `part_004`: parse the parameter
against `MaxPrimes`, then run the numeric core.  The parsed value is
non-negative by construction of `parseIntOrRange`, so the `.toNat`
conversion is exact. -/
def generatePrimesV4 (fuel : Nat) (param : String) (off : Nat) :
    Option (Except ParseErr PrimeResult) :=
  match parseIntOrRange param MaxPrimes "primes" off with
  | .error e => some (.error e)
  | .ok (n, wasRange) =>
    (generatePrimes fuel n.toNat).map fun r =>
      .ok { count := r.1, lastPrime := r.2,
            requestedRange := if wasRange then some param else none }

/-- A generator execution, for observing which generator bodies actually
ran during a request. -/
inductive GenOp where
  | primes
  | hex
  | memory
deriving DecidableEq

/-- Model of the `part_004` handler `primesHexMemory`, paired with the
trace of generator bodies that executed.  The source calls
`generatePrimes(p)` — which parses `p` and, when the parse succeeds, runs
the full prime enumeration — before it so much as looks at `h`; then
`createHexString(h)`, then `allocateMemory(m)`.  The trace records a
generator exactly when the source executes that generator's body (that
is, when its own parameter parsed successfully). -/
def primesHexMemory (fuel : Nat) (p h m : String) (offP offH offM : Nat)
    (rng : Nat → Nat) (allocPanics : Bool) :
    Option (List GenOp ×
      (Nat × Except (String × ParseErr) (PrimeResult × HexResult × MemoryResult))) :=
  match generatePrimesV4 fuel p offP with
  | none => none
  | some (.error e) => some ([], (400, .error ("p", e)))
  | some (.ok pResult) =>
    match createHexStringV4 h offH rng with
    | .error e => some ([.primes], (400, .error ("h", e)))
    | .ok hResult =>
      match allocateMemory m offM allocPanics with
      | (_, some e) => some ([.primes, .hex], (400, .error ("m", e)))
      | (mResult, none) =>
        some ([.primes, .hex, .memory],
          (200, .ok (pResult, hResult, mResult)))

/-- Model of the superseded `main.go` handler `primesHexMemory`: all three
parameters are parsed with `strconv.Atoi` and bounds-checked (p against
10000, h against 1000, m against 1000000) before any generator runs; only
then do `generatePrimes`, `createHexString` and `allocateMemory` execute.
Errors are reported as HTTP 400 naming the parameter.  The same
generator-execution trace is recorded. -/
def primesHexMemoryMain (fuel : Nat) (p h m : String) (rng : Nat → Nat)
    (allocPanics : Bool) :
    Option (List GenOp × (Nat × Except (String × ParseErr)
      ((Nat × Nat) × List Char × MemoryResult))) :=
  match goAtoi p.data with
  | none => some ([], (400, .error ("p", .invalidNumber)))
  | some pNum =>
    if pNum < 0 ∨ pNum > 10000 then
      some ([], (400, .error ("p", .numberOutOfRange)))
    else
      match goAtoi h.data with
      | none => some ([], (400, .error ("h", .invalidNumber)))
      | some hNum =>
        if hNum < 0 ∨ hNum > 1000 then
          some ([], (400, .error ("h", .numberOutOfRange)))
        else
          match goAtoi m.data with
          | none => some ([], (400, .error ("m", .invalidNumber)))
          | some mNum =>
            if mNum < 0 ∨ mNum > 1000000 then
              some ([], (400, .error ("m", .numberOutOfRange)))
            else
              match generatePrimes fuel pNum.toNat with
              | none => none
              | some pResult =>
                let hResult := createHexChars hNum.toNat rng
                -- main.go's allocateMemory has the same unnamed-result
                -- defer/recover as part_004's: its returned error is nil
                -- even when the allocation panics.
                some ([.primes, .hex, .memory],
                  (200, .ok (pResult, hResult,
                    if allocPanics then zeroMemoryResult
                    else { sizeKB := mNum, requestedRange := none })))

/-! # Theorems -/

/-! ## Helper lemmas: Fibonacci -/

/-- The legacy recursive implementation agrees with the canonical
Fibonacci function for every `n`. -/
theorem fibonacciRecursive_eq_fib (n : Nat) :
    fibonacciRecursive n = Nat.fib n := by
  induction n using Nat.strong_induction_on with
  | _ n ih =>
    match n with
    | 0 => rfl
    | 1 => rfl
    | n + 2 =>
      rw [fibonacciRecursive, Nat.fib_add_two, ih (n + 1) (by omega),
        ih n (by omega), Nat.add_comm]

/-- C7: for every `0 ≤ n ≤ 45`, the Fibonacci generator's result equals
the canonical Fibonacci value at position `n` (`F(0)=0`, `F(1)=1`,
`F(n)=F(n-1)+F(n-2)`); in particular `fibonacciRecursive 10 = F 10 = 55`,
`fibonacciRecursive 0 = 0` and `fibonacciRecursive 1 = 1`. -/
theorem fibonacciRecursive_matches_canonical (n : Nat) (h : n ≤ 45) :
    fibonacciRecursive n = Nat.fib n :=
  fibonacciRecursive_eq_fib n

/-- Witness for C7 at `n = 10`. -/
theorem fibonacciRecursive_matches_canonical_witness :
    10 ≤ 45 ∧ fibonacciRecursive 10 = Nat.fib 10 :=
  ⟨by decide, fibonacciRecursive_matches_canonical 10 (by decide)⟩

/-! ## Helper lemmas: hex generation -/

/-- Indexing the hex alphabet within bounds lands in the alphabet. -/
theorem hexChars_getD_mem : ∀ k, k < 16 → hexChars.getD k '0' ∈ hexChars := by
  decide

/-- Every character of the hex alphabet is a decimal digit or one of
`a`-`f`. -/
theorem hexChars_char_range :
    ∀ c ∈ hexChars, ('0' ≤ c ∧ c ≤ '9') ∨ ('a' ≤ c ∧ c ≤ 'f') := by
  decide

/-- C6: for every `0 ≤ n ≤ MaxHexKB`, the hex generator produces a
string of exactly `n*1024` characters, each of which is one of
`0-9a-f`; in particular a 1 KB request yields 1024 characters and a 0 KB
request yields 0 characters. -/
theorem createHexString_length_and_alphabet (n : Nat) (rng : Nat → Nat)
    (hn : (n : Int) ≤ MaxHexKB) :
    (createHexChars n rng).length = n * 1024 ∧
    ∀ c ∈ createHexChars n rng, ('0' ≤ c ∧ c ≤ '9') ∨ ('a' ≤ c ∧ c ≤ 'f') := by
  constructor
  · simp [createHexChars]
  · intro c hc
    simp only [createHexChars, List.mem_map, List.mem_range] at hc
    obtain ⟨i, -, rfl⟩ := hc
    exact hexChars_char_range _ (hexChars_getD_mem _ (Nat.mod_lt _ (by omega)))

/-- Witness for C6 at `n = 1`. -/
theorem createHexString_length_and_alphabet_witness :
    ((1 : Nat) : Int) ≤ MaxHexKB ∧
    ((createHexChars 1 fun _ => 0).length = 1 * 1024 ∧
      ∀ c ∈ createHexChars 1 fun _ => 0,
        ('0' ≤ c ∧ c ≤ '9') ∨ ('a' ≤ c ∧ c ≤ 'f')) :=
  ⟨by decide, createHexString_length_and_alphabet 1 (fun _ => 0) (by decide)⟩

/-! ## C4: the allocation-failure path of the memory stressor -/

/-- C4 (code bug): with a valid parameter `"10"` and a panicking
allocation, `allocateMemory` returns `(MemoryResult{}, nil)` — the
deferred `recover` assigns the converted error to a local variable, but
the result parameters are unnamed, so the error is lost — and the handler
therefore replies HTTP 200 with a zeroed success body instead of the
HTTP 500 error the specification requires. -/
theorem getMemory_alloc_panic_reports_success :
    allocateMemory "10" 0 true = (zeroMemoryResult, none) ∧
    getMemory "10" 0 true = (200, .ok zeroMemoryResult) ∧
    zeroMemoryResult.sizeKB = 0 :=
  ⟨rfl, rfl, rfl⟩

/-! ## C10: whitespace handling of the range parser -/

/-- C10: the parser trims surrounding whitespace from the two bounds of a
range but not from a single value: `"5 .. 7"` parses successfully as a
range (with a value in `[5,7]`), while `" 5"` is rejected as an invalid
number. -/
theorem parseIntOrRange_trims_range_bounds_only :
    (∀ off : Nat, ∃ v : Int, 5 ≤ v ∧ v ≤ 7 ∧
      parseIntOrRange "5 .. 7" 10000 "h" off = .ok (v, true)) ∧
    (∀ off : Nat,
      parseIntOrRange " 5" 10000 "h" off = .error .invalidNumber) := by
  constructor
  · intro off
    refine ⟨5 + ((off % 3 : Nat) : Int), by omega, ?_, rfl⟩
    have := Nat.mod_lt off (show 0 < 3 by omega)
    omega
  · intro off
    rfl

/-! ## Helper lemmas: decimal strings and `goAtoi` -/

/-- A decimal rendering is never empty. -/
theorem decChars_ne_nil (n : Nat) : decChars n ≠ [] := by
  rw [decChars]
  split <;> simp

/-- Every character of a decimal rendering is a decimal digit. -/
theorem decChars_isDigit (n : Nat) : ∀ c ∈ decChars n, c.isDigit = true := by
  induction n using Nat.strong_induction_on with
  | _ n ih =>
    rw [decChars]
    split
    · next hlt =>
      intro c hc
      rw [List.mem_singleton] at hc
      subst hc
      exact (by decide : ∀ d, d < 10 → (Nat.digitChar d).isDigit = true) n hlt
    · intro c hc
      rcases List.mem_append.mp hc with h1 | h2
      · exact ih (n / 10) (Nat.div_lt_self (by omega) (by omega)) c h1
      · rw [List.mem_singleton] at h2
        subst h2
        have : ∀ d, d < 10 → (Nat.digitChar d).isDigit = true := by decide
        exact this (n % 10) (Nat.mod_lt _ (by omega))

/-- A decimal digit character is not a dot and not a sign. -/
theorem isDigit_not_special {c : Char} (h : c.isDigit = true) :
    c ≠ '.' ∧ c ≠ '-' ∧ c ≠ '+' := by
  refine ⟨?_, ?_, ?_⟩ <;> rintro rfl <;> exact absurd h (by decide)

/-- A string without a dot contains no `".."`. -/
theorem containsDots_eq_false {l : List Char} (h : ∀ c ∈ l, c ≠ '.') :
    containsDots l = false := by
  induction l with
  | nil => rfl
  | cons c t ih =>
    match t with
    | [] => rfl
    | c2 :: rest =>
      rw [containsDots]
      have hc : c ≠ '.' := h c (by simp)
      have ht : containsDots (c2 :: rest) = false :=
        ih fun x hx => h x (by simp [hx])
      simp [hc, ht]

/-- Folding the digit-accumulation step over a decimal rendering starting
from accumulator `a` produces `a * 10 ^ (number of digits) + n`. -/
theorem decChars_foldl (n : Nat) : ∀ a : Nat,
    (decChars n).foldl (fun a c => 10 * a + (c.toNat - 48)) a =
      a * 10 ^ (decChars n).length + n := by
  induction n using Nat.strong_induction_on with
  | _ n ih =>
    intro a
    rw [decChars]
    split
    · next hlt =>
      have hd : ∀ d, d < 10 → (Nat.digitChar d).toNat = 48 + d := by decide
      simp [List.foldl, hd n hlt]
      omega
    · next hge =>
      have hd : (Nat.digitChar (n % 10)).toNat = 48 + n % 10 :=
        (by decide : ∀ d, d < 10 → (Nat.digitChar d).toNat = 48 + d)
          (n % 10) (Nat.mod_lt _ (by omega))
      rw [List.foldl_append, ih (n / 10) (Nat.div_lt_self (by omega) (by omega)) a,
        List.length_append, List.length_singleton, pow_succ]
      simp only [List.foldl, hd]
      have hdm := Nat.div_add_mod n 10
      set P := 10 ^ (decChars (n / 10)).length with hP
      ring_nf
      omega

/-- Parsing the digits of a decimal rendering recovers the number. -/
theorem parseDigits_decChars (n : Nat) : parseDigits (decChars n) = some n := by
  have hne : (decChars n).isEmpty = false := by
    cases hd : decChars n with
    | nil => exact absurd hd (decChars_ne_nil n)
    | cons c t => rfl
  have hall : (decChars n).all Char.isDigit = true :=
    List.all_eq_true.mpr (decChars_isDigit n)
  rw [parseDigits, hne]
  simp only [Bool.false_eq_true, if_false, hall, if_true]
  rw [decChars_foldl n 0]
  simp

/-- `goAtoi` of a decimal rendering recovers the number. -/
theorem goAtoi_decChars (n : Nat) : goAtoi (decChars n) = some (n : Int) := by
  cases hd : decChars n with
  | nil => exact absurd hd (decChars_ne_nil n)
  | cons c rest =>
    have hdig : c.isDigit = true :=
      decChars_isDigit n c (by rw [hd]; simp)
    obtain ⟨-, hm, hp⟩ := isDigit_not_special hdig
    rw [goAtoi, if_neg hm, if_neg hp, ← hd, parseDigits_decChars]
    rfl

/-- `goAtoi` of a negative decimal rendering recovers the negation. -/
theorem goAtoi_neg_decChars (m : Nat) :
    goAtoi ('-' :: decChars m) = some (-(m : Int)) := by
  rw [goAtoi, if_pos rfl, parseDigits_decChars]
  rfl

/-- No dot occurs in a decimal rendering. -/
theorem containsDots_decChars (n : Nat) : containsDots (decChars n) = false :=
  containsDots_eq_false fun c hc => (isDigit_not_special (decChars_isDigit n c hc)).1

/-- No dot occurs in a negative decimal rendering. -/
theorem containsDots_neg_decChars (m : Nat) :
    containsDots ('-' :: decChars m) = false := by
  refine containsDots_eq_false fun c hc => ?_
  rcases List.mem_cons.mp hc with rfl | hmem
  · decide
  · exact (isDigit_not_special (decChars_isDigit m c hmem)).1

/-- C1: for every integer `0 ≤ N ≤ ceiling` (any ceiling used by the
program), parsing the decimal string of `N` succeeds with `value = N` and
`isRange = false`; the value `ceiling` itself is accepted, `ceiling + 1`
is rejected with the bounds error, and every negative value `-M`
(`M ≥ 1`) is rejected. -/
theorem parseIntOrRange_single_value_spec (ceiling off : Nat) (name : String)
    (hceil : (ceiling : Int) ≤ MaxMemoryKB) :
    (∀ N : Nat, N ≤ ceiling →
      parseIntOrRange (decimalString N) (ceiling : Int) name off =
        .ok ((N : Int), false)) ∧
    parseIntOrRange (decimalString (ceiling + 1)) (ceiling : Int) name off =
      .error .numberOutOfRange ∧
    (∀ M : Nat, 1 ≤ M →
      parseIntOrRange (negDecimalString M) (ceiling : Int) name off =
        .error .numberOutOfRange) := by
  refine ⟨fun N hN => ?_, ?_, fun M hM => ?_⟩
  · rw [parseIntOrRange]
    simp only [decimalString, containsDots_decChars, Bool.false_eq_true, if_false]
    rw [goAtoi_decChars]
    have : ¬((N : Int) < 0 ∨ (N : Int) > (ceiling : Int)) := by
      push_cast
      omega
    simp only [this, if_false]
  · rw [parseIntOrRange]
    simp only [decimalString, containsDots_decChars, Bool.false_eq_true, if_false]
    rw [goAtoi_decChars]
    have : ((ceiling + 1 : Nat) : Int) < 0 ∨ ((ceiling + 1 : Nat) : Int) > (ceiling : Int) := by
      push_cast
      omega
    simp only [this, if_true]
  · rw [parseIntOrRange]
    simp only [negDecimalString, containsDots_neg_decChars, Bool.false_eq_true, if_false]
    rw [goAtoi_neg_decChars]
    have : (-(M : Int) < 0 ∨ -(M : Int) > (ceiling : Int)) := by
      push_cast
      omega
    simp only [this, if_true]

/-- Witness for C1 at ceiling 10000: `"7"` parses to `(7, false)`,
`"10001"` is rejected, `"-5"` is rejected. -/
theorem parseIntOrRange_single_value_spec_witness :
    ((10000 : Nat) : Int) ≤ MaxMemoryKB ∧
    parseIntOrRange (decimalString 7) ((10000 : Nat) : Int) "p" 0 =
      .ok (((7 : Nat) : Int), false) ∧
    parseIntOrRange (decimalString (10000 + 1)) ((10000 : Nat) : Int) "p" 0 =
      .error .numberOutOfRange ∧
    parseIntOrRange (negDecimalString 5) ((10000 : Nat) : Int) "p" 0 =
      .error .numberOutOfRange := by
  obtain ⟨h1, h2, h3⟩ :=
    parseIntOrRange_single_value_spec 10000 0 "p" (by decide)
  exact ⟨by decide, h1 7 (by decide), h2, h3 5 (by decide)⟩


/-! ## C2: the range branch of the parser -/

/-- C2: for every parameter string containing `".."` (and any ceiling the
program uses), parsing succeeds exactly when the string splits into two
segments that both parse (after trimming) as integers `mn`, `mx` with
`0 ≤ mn ≤ mx ≤ ceiling` — so it fails exactly on a non-numeric segment, a
negative bound, `min > max`, a bound beyond the ceiling, or a wrong
segment count — and on success the result is marked as a range and its
value lies in the closed interval `[mn, mx]`, for every possible random
draw `off`. -/
theorem parseIntOrRange_range_spec (param : String) (c : Int) (name : String)
    (off : Nat) (hdots : containsDots param.data = true)
    (hc : c ≤ MaxMemoryKB) :
    ((∃ v r, parseIntOrRange param c name off = .ok (v, r)) ↔
      ∃ a b mn mx, splitOnDots param.data = [a, b] ∧
        goAtoi (goTrimSpace a) = some mn ∧ goAtoi (goTrimSpace b) = some mx ∧
        0 ≤ mn ∧ mn ≤ mx ∧ mx ≤ c) ∧
    (∀ v r, parseIntOrRange param c name off = .ok (v, r) →
      r = true ∧ ∃ a b mn mx, splitOnDots param.data = [a, b] ∧
        goAtoi (goTrimSpace a) = some mn ∧ goAtoi (goTrimSpace b) = some mx ∧
        mn ≤ v ∧ v ≤ mx) := by
  rw [parseIntOrRange, if_pos hdots]
  split
  case _ minPart maxPart heq =>
    split
    case _ h1 =>
      refine ⟨⟨fun hex => ?_, fun hex => ?_⟩, fun v r hvr => by simp at hvr⟩
      · obtain ⟨v, r, hvr⟩ := hex
        simp at hvr
      · obtain ⟨a, b, mn', mx', hab, ha', hb', -⟩ := hex
        rw [heq] at hab
        simp only [List.cons.injEq, and_true] at hab
        obtain ⟨rfl, rfl⟩ := hab
        rw [h1] at ha'
        cases ha'
    case _ mn h1 =>
      split
      case _ h2 =>
        refine ⟨⟨fun hex => ?_, fun hex => ?_⟩, fun v r hvr => by simp at hvr⟩
        · obtain ⟨v, r, hvr⟩ := hex
          simp at hvr
        · obtain ⟨a, b, mn', mx', hab, ha', hb', -⟩ := hex
          rw [heq] at hab
          simp only [List.cons.injEq, and_true] at hab
          obtain ⟨rfl, rfl⟩ := hab
          rw [h2] at hb'
          cases hb'
      case _ mx h2 =>
        by_cases hneg : mn < 0 ∨ mx < 0
        · rw [if_pos hneg]
          refine ⟨⟨fun hex => ?_, fun hex => ?_⟩, fun v r hvr => by simp at hvr⟩
          · obtain ⟨v, r, hvr⟩ := hex
            simp at hvr
          · obtain ⟨a, b, mn', mx', hab, ha', hb', h0, hle, hup⟩ := hex
            rw [heq] at hab
            simp only [List.cons.injEq, and_true] at hab
            obtain ⟨rfl, rfl⟩ := hab
            rw [h1] at ha'
            rw [h2] at hb'
            cases ha'
            cases hb'
            omega
        · rw [if_neg hneg]
          by_cases hgt : mn > mx
          · rw [if_pos hgt]
            refine ⟨⟨fun hex => ?_, fun hex => ?_⟩, fun v r hvr => by simp at hvr⟩
            · obtain ⟨v, r, hvr⟩ := hex
              simp at hvr
            · obtain ⟨a, b, mn', mx', hab, ha', hb', h0, hle, hup⟩ := hex
              rw [heq] at hab
              simp only [List.cons.injEq, and_true] at hab
              obtain ⟨rfl, rfl⟩ := hab
              rw [h1] at ha'
              rw [h2] at hb'
              cases ha'
              cases hb'
              omega
          · rw [if_neg hgt]
            by_cases hbound : mn > c ∨ mx > c
            · rw [if_pos hbound]
              refine ⟨⟨fun hex => ?_, fun hex => ?_⟩, fun v r hvr => by simp at hvr⟩
              · obtain ⟨v, r, hvr⟩ := hex
                simp at hvr
              · obtain ⟨a, b, mn', mx', hab, ha', hb', h0, hle, hup⟩ := hex
                rw [heq] at hab
                simp only [List.cons.injEq, and_true] at hab
                obtain ⟨rfl, rfl⟩ := hab
                rw [h1] at ha'
                rw [h2] at hb'
                cases ha'
                cases hb'
                omega
            · rw [if_neg hbound]
              have hkpos : 0 < (mx - mn + 1).toNat := by omega
              have hlt := Nat.mod_lt off hkpos
              refine ⟨⟨fun hex => ?_, fun hex => ?_⟩, fun v r hvr => ?_⟩
              · exact ⟨minPart, maxPart, mn, mx, heq, h1, h2,
                  by omega, by omega, by omega⟩
              · exact ⟨_, _, rfl⟩
              · rw [Except.ok.injEq, Prod.mk.injEq] at hvr
                obtain ⟨hv, hr⟩ := hvr
                subst hv
                subst hr
                exact ⟨rfl, minPart, maxPart, mn, mx, heq, h1, h2,
                  by omega, by omega⟩
  case _ =>
    rename_i xs hne
    refine ⟨⟨fun hex => ?_, fun hex => ?_⟩, fun v r hvr => by simp at hvr⟩
    · obtain ⟨v, r, hvr⟩ := hex
      simp at hvr
    · obtain ⟨a, b, mn', mx', hab, -⟩ := hex
      exact (hne a b hab).elim

/-- Witness for C2 at `param = "3..7"`, ceiling 10, `off = 5`. -/
theorem parseIntOrRange_range_spec_witness :
    containsDots ("3..7".data) = true ∧ (10 : Int) ≤ MaxMemoryKB ∧
    (((∃ v r, parseIntOrRange "3..7" 10 "x" 5 = .ok (v, r)) ↔
      ∃ a b mn mx, splitOnDots ("3..7".data) = [a, b] ∧
        goAtoi (goTrimSpace a) = some mn ∧ goAtoi (goTrimSpace b) = some mx ∧
        0 ≤ mn ∧ mn ≤ mx ∧ mx ≤ 10) ∧
    (∀ v r, parseIntOrRange "3..7" 10 "x" 5 = .ok (v, r) →
      r = true ∧ ∃ a b mn mx, splitOnDots ("3..7".data) = [a, b] ∧
        goAtoi (goTrimSpace a) = some mn ∧ goAtoi (goTrimSpace b) = some mx ∧
        mn ≤ v ∧ v ≤ mx)) :=
  ⟨by decide, by decide,
    parseIntOrRange_range_spec "3..7" 10 "x" 5 (by decide) (by decide)⟩

/-! ## Helper lemmas: the prime generator -/

theorem mem_primesBelow {p c : Nat} : p ∈ primesBelow c ↔ p.Prime ∧ p < c := by
  simp only [primesBelow, List.mem_filter, List.mem_range, decide_eq_true_eq]
  tauto

theorem pairwise_primesBelow (c : Nat) : (primesBelow c).Pairwise (· < ·) :=
  (List.pairwise_lt_range c).filter _

theorem length_primesBelow (c : Nat) :
    (primesBelow c).length = Nat.count Nat.Prime c := by
  rw [Nat.count, List.countP_eq_length_filter]
  rfl

theorem primesBelow_two : primesBelow 2 = [] := by
  have h0 : ¬Nat.Prime 0 := Nat.not_prime_zero
  have h1 : ¬Nat.Prime 1 := Nat.not_prime_one
  simp [primesBelow, List.range_succ, List.filter_append, h0, h1]

theorem primesBelow_three : primesBelow 3 = [2] := by
  have h0 : ¬Nat.Prime 0 := Nat.not_prime_zero
  have h1 : ¬Nat.Prime 1 := Nat.not_prime_one
  have h2 : Nat.Prime 2 := Nat.prime_two
  simp [primesBelow, List.range_succ, List.filter_append, h0, h1, h2]

theorem nth_prime_zero : Nat.nth Nat.Prime 0 = 2 := by
  have h := Nat.nth_count (p := Nat.Prime) (n := 2) Nat.prime_two
  rwa [← length_primesBelow, primesBelow_two, List.length_nil] at h

theorem succ_of_odd_not_prime {c : Nat} (h3 : 3 ≤ c) (hodd : c % 2 = 1) :
    ¬(c + 1).Prime := by
  intro hp
  have h2 : (2 : Nat) ∣ (c + 1) := by omega
  rcases hp.eq_one_or_self_of_dvd 2 h2 with h | h <;> omega

theorem primesBelow_step {c : Nat} (h3 : 3 ≤ c) (hodd : c % 2 = 1) :
    primesBelow (c + 2) =
      primesBelow c ++ (if Nat.Prime c then [c] else []) := by
  have hs : ¬(c + 1).Prime := succ_of_odd_not_prime h3 hodd
  have : c + 2 = (c + 1) + 1 := rfl
  rw [primesBelow, this, List.range_succ, List.range_succ,
    List.filter_append, List.filter_append]
  by_cases hc : Nat.Prime c <;> simp [hc, hs, primesBelow]

theorem trialDivide_of_prime {c : Nat} (hc : c.Prime) :
    ∀ l, (∀ p ∈ l, p.Prime ∧ p < c) → trialDivide l c = true := by
  intro l
  induction l with
  | nil => intro _; rfl
  | cons p ps ih =>
    intro hall
    obtain ⟨hp, hplt⟩ := hall p (List.mem_cons_self p ps)
    rw [trialDivide]
    by_cases h1 : p * p > c
    · rw [if_pos h1]
    · rw [if_neg h1]
      have hnd : ¬c % p = 0 := by
        intro hmod
        have hdvd : p ∣ c := Nat.dvd_of_mod_eq_zero hmod
        have := (Nat.prime_dvd_prime_iff_eq hp hc).mp hdvd
        omega
      rw [if_neg hnd]
      exact ih fun q hq => hall q (List.mem_cons_of_mem p hq)

theorem trialDivide_of_composite {c : Nat} (h2 : 2 ≤ c) (hc : ¬c.Prime) :
    ∀ l, l.Pairwise (· < ·) → (∀ p ∈ l, p.Prime) → c.minFac ∈ l →
      trialDivide l c = false := by
  have hsq : c.minFac ^ 2 ≤ c := Nat.minFac_sq_le_self (by omega) hc
  intro l
  induction l with
  | nil => intro _ _ hmem; cases hmem
  | cons p ps ih =>
    intro hpair hall hmem
    by_cases hpe : p = c.minFac
    · have h1 : ¬p * p > c := by
        have hpp2 : p ^ 2 ≤ c := by rw [hpe]; exact hsq
        have : p * p = p ^ 2 := (pow_two p).symm
        omega
      have hmod : c % p = 0 := by
        rw [hpe]
        exact Nat.mod_eq_zero_of_dvd (Nat.minFac_dvd c)
      rw [trialDivide, if_neg h1, if_pos hmod]
    · have hmem' : c.minFac ∈ ps := by
        rcases List.mem_cons.mp hmem with h | h
        · exact absurd h.symm hpe
        · exact h
      have hplt : p < c.minFac :=
        (List.pairwise_cons.mp hpair).1 _ hmem'
      have h1 : ¬p * p > c := by
        have hlt : p * p < c.minFac * c.minFac :=
          mul_lt_mul'' hplt hplt (Nat.zero_le p) (Nat.zero_le p)
        have : c.minFac * c.minFac = c.minFac ^ 2 := (pow_two _).symm
        omega
      have hnd : ¬c % p = 0 := by
        intro hmod
        have hdvd : p ∣ c := Nat.dvd_of_mod_eq_zero hmod
        have hpp : p.Prime := hall p (List.mem_cons_self p ps)
        have := Nat.minFac_le_of_dvd hpp.two_le hdvd
        omega
      rw [trialDivide, if_neg h1, if_neg hnd]
      exact ih (List.pairwise_cons.mp hpair).2
        (fun q hq => hall q (List.mem_cons_of_mem p hq)) hmem'

theorem trialDivide_primesBelow {c : Nat} (h3 : 3 ≤ c) :
    (trialDivide (primesBelow c) c = true ↔ c.Prime) := by
  constructor
  · intro htd
    by_contra hc
    have hmflt : c.minFac < c := by
      have hle : c.minFac ≤ c := Nat.minFac_le (by omega)
      rcases Nat.lt_or_ge c.minFac c with h | h
      · exact h
      · exfalso
        have : c.minFac = c := by omega
        exact hc (Nat.prime_def_minFac.mpr ⟨by omega, this⟩)
    have hmem : c.minFac ∈ primesBelow c :=
      mem_primesBelow.mpr ⟨Nat.minFac_prime (by omega), hmflt⟩
    have := trialDivide_of_composite (by omega) hc (primesBelow c)
      (pairwise_primesBelow c) (fun p hp => (mem_primesBelow.mp hp).1) hmem
    rw [htd] at this
    cases this
  · intro hc
    exact trialDivide_of_prime hc (primesBelow c)
      fun p hp => mem_primesBelow.mp hp

theorem primeLoopInv_init : PrimeLoopInv [2] 2 1 3 := by
  refine ⟨primesBelow_three.symm, ?_, le_refl 1, ?_, by omega, rfl⟩
  · rw [← length_primesBelow, primesBelow_three]
    rfl
  · exact nth_prime_zero

theorem primeLoopInv_step_prime {primes : List Nat} {lastPrime count cand : Nat}
    (h : PrimeLoopInv primes lastPrime count cand) (hcp : cand.Prime) :
    PrimeLoopInv (primes ++ [cand]) cand (count + 1) (cand + 2) := by
  obtain ⟨hp, hcount, hc1, hnth, h3, hodd⟩ := h
  refine ⟨?_, ?_, by omega, ?_, by omega, by omega⟩
  · rw [primesBelow_step h3 hodd, if_pos hcp, hp]
  · rw [← length_primesBelow, primesBelow_step h3 hodd, if_pos hcp,
      List.length_append, List.length_singleton, length_primesBelow, hcount]
  · have := Nat.nth_count (p := Nat.Prime) hcp
    rw [← hcount] at this
    simpa using this

theorem primeLoopInv_step_not_prime {primes : List Nat}
    {lastPrime count cand : Nat}
    (h : PrimeLoopInv primes lastPrime count cand) (hcp : ¬cand.Prime) :
    PrimeLoopInv primes lastPrime count (cand + 2) := by
  obtain ⟨hp, hcount, hc1, hnth, h3, hodd⟩ := h
  refine ⟨?_, ?_, hc1, hnth, by omega, by omega⟩
  · rw [primesBelow_step h3 hodd, if_neg hcp, List.append_nil, hp]
  · rw [← length_primesBelow, primesBelow_step h3 hodd, if_neg hcp,
      List.append_nil, length_primesBelow, hcount]

theorem primeLoop_scan (n count : Nat) (primes : List Nat) (lastPrime : Nat)
    (H : ∀ primes' lp' cand', PrimeLoopInv primes' lp' (count + 1) cand' →
      ∃ fuel prs, generatePrimesLoop fuel primes' lp' (count + 1) n cand' =
        some (prs, n, Nat.nth Nat.Prime (n - 1)) ∧ prs.length = n ∧
        ∀ q ∈ prs, q.Prime) :
    ∀ d cand, PrimeLoopInv primes lastPrime count cand → count < n →
    (∃ p, p.Prime ∧ cand ≤ p ∧ p ≤ cand + d) →
    ∃ fuel prs, generatePrimesLoop fuel primes lastPrime count n cand =
      some (prs, n, Nat.nth Nat.Prime (n - 1)) ∧ prs.length = n ∧
      ∀ q ∈ prs, q.Prime := by
  intro d
  induction d using Nat.strong_induction_on with
  | _ d ih =>
    rintro cand hInv hlt ⟨p, hp, hpc, hpd⟩
    have htd : trialDivide primes cand = true ↔ cand.Prime := by
      rw [hInv.1]
      exact trialDivide_primesBelow hInv.2.2.2.2.1
    by_cases hcp : cand.Prime
    · obtain ⟨fuel, prs, heq, hlen, hprime⟩ :=
        H _ _ _ (primeLoopInv_step_prime hInv hcp)
      refine ⟨fuel + 1, prs, ?_, hlen, hprime⟩
      rw [generatePrimesLoop, if_pos hlt, if_pos (htd.mpr hcp)]
      exact heq
    · have hodd := hInv.2.2.2.2.2
      have h3 := hInv.2.2.2.2.1
      have hp2 : cand + 2 ≤ p := by
        have hne : p ≠ cand := fun hh => hcp (hh ▸ hp)
        have hne1 : p ≠ cand + 1 := by
          intro hh
          exact succ_of_odd_not_prime h3 hodd (hh ▸ hp)
        omega
      obtain ⟨fuel, prs, heq, hlen, hprime⟩ :=
        ih (d - 2) (by omega) (cand + 2)
          (primeLoopInv_step_not_prime hInv hcp) hlt
          ⟨p, hp, by omega, by omega⟩
      refine ⟨fuel + 1, prs, ?_, hlen, hprime⟩
      rw [generatePrimesLoop, if_pos hlt,
        if_neg (fun hh => hcp (htd.mp hh))]
      exact heq

theorem primeLoop_reaches (n : Nat) : ∀ k count primes lastPrime cand,
    n - count = k → PrimeLoopInv primes lastPrime count cand → count ≤ n →
    ∃ fuel prs, generatePrimesLoop fuel primes lastPrime count n cand =
      some (prs, n, Nat.nth Nat.Prime (n - 1)) ∧ prs.length = n ∧
      ∀ q ∈ prs, q.Prime := by
  intro k
  induction k using Nat.strong_induction_on with
  | _ k ih =>
    intro count primes lastPrime cand hk hInv hle
    by_cases hlt : count < n
    · obtain ⟨p, hpc, hp⟩ := Nat.exists_infinite_primes cand
      refine primeLoop_scan n count primes lastPrime ?_ (p - cand) cand hInv
        hlt ⟨p, hp, hpc, by omega⟩
      intro primes' lp' cand' hInv'
      exact ih (n - (count + 1)) (by omega) (count + 1) primes' lp' cand'
        rfl hInv' (by omega)
    · have hcn : count = n := by omega
      obtain ⟨hpr, hcount, hc1, hnth, h3, hodd⟩ := hInv
      refine ⟨1, primes, ?_, ?_, ?_⟩
      · rw [generatePrimesLoop, if_neg hlt, hcn, ← hnth, hcn]
      · rw [hpr, length_primesBelow, ← hcount, hcn]
      · intro q hq
        rw [hpr] at hq
        exact (mem_primesBelow.mp hq).1

theorem generatePrimesLoop_mono : ∀ fuel fuel', fuel ≤ fuel' →
    ∀ primes lp count n cand r,
    generatePrimesLoop fuel primes lp count n cand = some r →
    generatePrimesLoop fuel' primes lp count n cand = some r := by
  intro fuel
  induction fuel with
  | zero => intro fuel' _ primes lp count n cand r h; cases h
  | succ fuel ih =>
    intro fuel' hle primes lp count n cand r h
    match fuel' with
    | 0 => omega
    | f' + 1 =>
      rw [generatePrimesLoop] at h
      rw [generatePrimesLoop]
      by_cases hlt : count < n
      · rw [if_pos hlt] at h ⊢
        by_cases htd : trialDivide primes cand = true
        · rw [if_pos htd] at h ⊢
          exact ih f' (by omega) _ _ _ _ _ _ h
        · rw [if_neg htd] at h ⊢
          exact ih f' (by omega) _ _ _ _ _ _ h
      · rw [if_neg hlt] at h ⊢
        exact h

theorem nth_prime_four : Nat.nth Nat.Prime 4 = 11 := by
  obtain ⟨fuel, prs, heq, -, -⟩ :=
    primeLoop_reaches 5 4 1 [2] 2 3 rfl primeLoopInv_init (by omega)
  have hconc : generatePrimesLoop 9 [2] 2 1 5 3 = some ([2, 3, 5, 7, 11], 5, 11) := by
    decide
  have h1 := generatePrimesLoop_mono fuel (fuel + 9) (by omega) _ _ _ _ _ _ heq
  have h2 := generatePrimesLoop_mono 9 (fuel + 9) (by omega) _ _ _ _ _ _ hconc
  rw [h1] at h2
  have := (Option.some.injEq _ _).mp h2
  have h3 := congrArg (fun s => s.2.2) this
  simpa using h3

/-- C5: for every `0 ≤ n ≤ 10000`, the prime generator (given enough
fuel) returns `count = n` and `lastPrime` equal to the `n`-th prime
number (`Nat.nth Nat.Prime (n-1)`, 0 when `n = 0`); with
`Nat.nth Nat.Prime 4 = 11` this gives `generatePrimes 5 = (5, 11)` and
`generatePrimes 0 = (0, 0)`. -/
theorem generatePrimes_count_and_nth_prime (n : Nat) (h : n ≤ 10000) :
    ∃ fuel, generatePrimes fuel n =
      some (n, if n = 0 then 0 else Nat.nth Nat.Prime (n - 1)) := by
  by_cases h0 : n = 0
  · subst h0
    exact ⟨1, rfl⟩
  · by_cases h1 : n = 1
    · subst h1
      refine ⟨1, ?_⟩
      rw [if_neg (by omega)]
      rw [show (1 : Nat) - 1 = 0 from rfl, nth_prime_zero]
      rfl
    · obtain ⟨fuel, prs, heq, -, -⟩ :=
        primeLoop_reaches n (n - 1) 1 [2] 2 3 rfl primeLoopInv_init (by omega)
      refine ⟨fuel, ?_⟩
      rw [generatePrimes, if_neg h0, if_neg h1, heq, if_neg h0]
      rfl

/-- Witness for C5 at `n = 5`: count 5, last prime 11. -/
theorem generatePrimes_count_and_nth_prime_witness :
    5 ≤ 10000 ∧ ∃ fuel, generatePrimes fuel 5 = some (5, 11) := by
  refine ⟨by decide, ?_⟩
  obtain ⟨fuel, hf⟩ := generatePrimes_count_and_nth_prime 5 (by decide)
  rw [if_neg (by decide), show (5 : Nat) - 1 = 4 from rfl, nth_prime_four] at hf
  exact ⟨fuel, hf⟩

/-- C8 counterexample: the loop of the prime generator materializes the
full list of the first `n` primes in its `primes` slice — for `n = 5` it
retains exactly `[2, 3, 5, 7, 11]` (all five primes), and for `n = 7`
exactly the seven first primes: the retained storage grows with `n`
instead of staying constant. -/
theorem generatePrimesLoop_materializes_full_list :
    generatePrimesLoop 9 [2] 2 1 5 3 = some ([2, 3, 5, 7, 11], 5, 11) ∧
    generatePrimesLoop 9 [2] 2 1 7 3 = some ([2, 3, 5, 7, 11, 13, 17], 7, 17) ∧
    ([2, 3, 5, 7, 11] : List Nat).length = 5 ∧
    ([2, 3, 5, 7, 11, 13, 17] : List Nat).length = 7 := by
  refine ⟨by decide, by decide, rfl, rfl⟩

/-- C8 amended: the generator reports only `(count, lastPrime)` — they
are the only fields projected out of the loop state — but the loop keeps
the full list of primes found (it is needed for trial division): at
completion the retained `primes` list has length exactly `n`, all its
elements prime, so the working storage grows linearly with `n` rather
than being bounded by a constant. -/
theorem generatePrimesLoop_retains_n_primes (n : Nat) (h : 2 ≤ n) :
    ∃ fuel prs lastP,
      generatePrimesLoop fuel [2] 2 1 n 3 = some (prs, n, lastP) ∧
      prs.length = n ∧ (∀ q ∈ prs, q.Prime) ∧
      generatePrimes fuel n = some (n, lastP) := by
  obtain ⟨fuel, prs, heq, hlen, hpr⟩ :=
    primeLoop_reaches n (n - 1) 1 [2] 2 3 rfl primeLoopInv_init (by omega)
  refine ⟨fuel, prs, _, heq, hlen, hpr, ?_⟩
  rw [generatePrimes, if_neg (by omega), if_neg (by omega), heq]
  rfl

/-- Witness for the amended C8 at `n = 5`. -/
theorem generatePrimesLoop_retains_n_primes_witness :
    2 ≤ 5 ∧ ∃ fuel prs lastP,
      generatePrimesLoop fuel [2] 2 1 5 3 = some (prs, 5, lastP) ∧
      prs.length = 5 ∧ (∀ q ∈ prs, q.Prime) ∧
      generatePrimes fuel 5 = some (5, lastP) :=
  ⟨by decide, generatePrimesLoop_retains_n_primes 5 (by decide)⟩

/-! ## C9: refinement of the superseded list-returning variant -/

theorem generatePrimesLoop_sim (fuel : Nat) : ∀ (primes : List Nat) (n cand : Nat),
    generatePrimesLoop fuel primes (primes.getLastD 0) primes.length n cand =
      (generatePrimesLoopPart3 fuel primes n cand).map
        fun l => (l, l.length, l.getLastD 0) := by
  induction fuel with
  | zero => intros; rfl
  | succ fuel ih =>
    intro primes n cand
    rw [generatePrimesLoop, generatePrimesLoopPart3]
    by_cases hlt : primes.length < n
    · rw [if_pos hlt, if_pos hlt]
      by_cases htd : trialDivide primes cand = true
      · rw [if_pos htd, if_pos htd]
        have := ih (primes ++ [cand]) n (cand + 2)
        simpa [List.getLastD_concat] using this
      · rw [if_neg htd, if_neg htd]
        exact ih primes n (cand + 2)
    · rw [if_neg hlt, if_neg hlt]
      rfl

/-- C9: for every `n` (and every fuel allowance) the streaming prime
generator agrees with the superseded list-returning variant of
`part_003`: its `count` is the length of the list the old variant
returns, and its `lastPrime` is that list's last element (0 when the
list is empty). -/
theorem generatePrimes_refines_part3 (fuel n : Nat) :
    generatePrimes fuel n =
      (generatePrimesPart3 fuel n).map fun l => (l.length, l.getLastD 0) := by
  rw [generatePrimes, generatePrimesPart3]
  by_cases h0 : n = 0
  · subst h0
    rfl
  · rw [if_neg h0, if_neg h0]
    by_cases h1 : n = 1
    · subst h1
      rfl
    · rw [if_neg h1, if_neg h1]
      have h := generatePrimesLoop_sim fuel [2] n 3
      simp only [List.length_singleton] at h
      rw [show ([2] : List Nat).getLastD 0 = 2 from rfl] at h
      rw [h, Option.map_map]
      rfl

/-- C3 counterexample: in the final (`part_004`) multi-operation handler,
a request with a valid first parameter (`p = "5"`) and an invalid second
parameter (`h = "x"`) runs the prime generator to completion *before* the
second parameter is even parsed: the request is rejected with 400 on
`h`, but the executed-generator trace is `[primes]`, not `[]` — the first
parameter's generator did run. -/
theorem primesHexMemory_runs_first_generator_before_second_validation :
    primesHexMemory 20 "5" "x" "1" 0 0 0 (fun _ => 0) false =
      some ([.primes], (400, .error ("h", .invalidNumber))) ∧
    [GenOp.primes] ≠ ([] : List GenOp) :=
  ⟨rfl, by decide⟩

/-- C3 amended: in the final (`part_004`) handler, validation is
interleaved with execution in left-to-right order — each parameter is
validated immediately before its own generator runs, so a failing second
parameter aborts the request before the hex and memory generators run,
but only after the first parameter's generator has already executed
(trace `[primes]`).  In the superseded `main.go` handler, all parameters
are validated before any generator runs: every 400 response there has an
empty generator trace. -/
theorem primesHexMemory_interleaves_validation_and_execution :
    (∀ fuel (p h m : String) offP offH offM rng ap pres e,
      generatePrimesV4 fuel p offP = some (.ok pres) →
      parseIntOrRange h MaxHexKB "hex" offH = .error e →
      primesHexMemory fuel p h m offP offH offM rng ap =
        some ([.primes], (400, .error ("h", e)))) ∧
    (∀ fuel (p h m : String) rng ap log body,
      primesHexMemoryMain fuel p h m rng ap = some (log, (400, body)) →
      log = []) := by
  constructor
  · intro fuel p h m offP offH offM rng ap pres e h1 h2
    simp only [primesHexMemory, h1, createHexStringV4, h2]
  · intro fuel p h m rng ap log body hres
    rw [primesHexMemoryMain] at hres
    repeat' split at hres
    all_goals
      first
      | exact Option.noConfusion hres
      | (simp only [Option.some.injEq, Prod.mk.injEq] at hres
         first
         | exact hres.1.symm
         | exact absurd hres.2.1 (by decide))

/-- Witness for the amended C3 at `p = "5"`, `h = "x"`, `m = "1"`. -/
theorem primesHexMemory_interleaves_validation_and_execution_witness :
    primesHexMemory 20 "5" "x" "1" 0 0 0 (fun _ => 0) false =
      some ([.primes], (400, .error ("h", .invalidNumber))) :=
  primesHexMemory_interleaves_validation_and_execution.1 20 "5" "x" "1" 0 0 0
    (fun _ => 0) false
    { count := 5, lastPrime := 11, requestedRange := none }
    .invalidNumber rfl rfl
